import Mathlib

/-!
Verification of the `bakery` blueprint serializer and breadboard graph
builder.  The Rust source is shallowly embedded: byte buffers are
`List Nat` (each element one byte), machine integers are `Nat` with
explicit `% 2 ^ w` truncation where a cast occurs in the source, and
fallible or panicking operations return `Option`.
-/

namespace Bakery

/-! ## Serializer primitives (src/ftd_data.rs, `impl Serializer`) -/

/-- Embedding of `Serializer::push_u8`: one byte.  The source argument is a
`u8`, so the value is reduced mod 256. -/
def push_u8 (n : Nat) : List Nat := [n % 256]

/-- Embedding of `Serializer::push_u16`: the two little-endian bytes of a
16-bit value (`n.to_le_bytes()`). -/
def push_u16 (n : Nat) : List Nat := [n % 256, n / 256 % 256]

/-- Embedding of `Serializer::push_wierd_u32` (name kept from the source):
pushes `(n >> 16) as u16` little-endian, then `n as u16` little-endian. -/
def push_wierd_u32 (n : Nat) : List Nat :=
  push_u16 (n / 65536 % 65536) ++ push_u16 (n % 65536)

/-- Embedding of `Serializer::push_u24`: the low three little-endian bytes;
the source asserts `n < 1 << 24`. -/
def push_u24 (n : Nat) : List Nat := [n % 256, n / 256 % 256, n / 65536 % 256]

/-! ## Chunked byte serialization (src/ftd_data.rs, `DataEntry::serialize_bytes`) -/

/-- Embedding of the loop in `DataEntry::serialize_bytes`: writes a 1-byte
length then up to 255 bytes of payload; whenever data remains, the 2-byte
entry id is re-emitted before the next chunk. -/
def serialize_bytes (data : List Nat) (entryId : Nat) : List Nat :=
  push_u8 (min data.length 255) ++ data.take (min data.length 255) ++
    (if (data.drop (min data.length 255)).length = 0 then []
     else push_u16 entryId ++ serialize_bytes (data.drop (min data.length 255)) entryId)
termination_by data.length
decreasing_by
  simp only [List.length_drop] at *
  omega

/-- Chunk decomposition performed by `DataEntry::serialize_bytes`: the
successive payload slices of at most 255 bytes (a single empty chunk for
empty input). -/
def byteChunks (data : List Nat) : List (List Nat) :=
  data.take (min data.length 255) ::
    (if (data.drop (min data.length 255)).length = 0 then []
     else byteChunks (data.drop (min data.length 255)))
termination_by data.length
decreasing_by
  simp only [List.length_drop] at *
  omega

/-- Byte stream of one non-initial chunk: the re-emitted 2-byte entry id,
the 1-byte length, then the payload. -/
def renderChunk (entryId : Nat) (c : List Nat) : List Nat :=
  push_u16 entryId ++ push_u8 c.length ++ c

/-- Byte stream of a chunk list: the first chunk carries only its 1-byte
length prefix (its entry id was written by the caller); each later chunk is
preceded by the re-emitted entry id. -/
def renderChunks (entryId : Nat) : List (List Nat) → List Nat
  | [] => []
  | c :: cs => push_u8 c.length ++ c ++ (cs.map (renderChunk entryId)).flatten

/-! ## Block body length words (src/ftd_data.rs, `BlueprintData::serialize`) -/

/-- Embedding of the body-length loop in `BlueprintData::serialize`, at the
level of the emitted 16-bit words: while at least `u16::MAX = 65535`
remains, a word 65535 is emitted and subtracted; the first remainder below
65535 is emitted and terminates the sequence. -/
def bodyLengthWords (b : Nat) : List Nat :=
  if 65535 ≤ b then 65535 :: bodyLengthWords (b - 65535) else [b]
termination_by b
decreasing_by omega

/-- Embedding of the body-length loop in `BlueprintData::serialize`, at the
byte level: each word of `bodyLengthWords` written through `push_u16`. -/
def serialize_body_length (b : Nat) : List Nat :=
  if 65535 ≤ b then push_u16 65535 ++ serialize_body_length (b - 65535) else push_u16 b
termination_by b
decreasing_by omega

/-! ## GUID byte permutation (src/ftd_data.rs, `ftd_uuid_to_uuid`) -/

/-- Embedding of the local `swap` closure in `ftd_uuid_to_uuid`: exchange
the bytes at positions `a` and `b` of a 16-byte array, modelled as a
function from byte index to byte value. -/
def swapBytes (f : Fin 16 → Nat) (a b : Fin 16) : Fin 16 → Nat :=
  fun i => if i = a then f b else if i = b then f a else f i

/-- Embedding of `ftd_uuid_to_uuid`: swaps the byte pairs 0↔3, 1↔2, 4↔5 and
6↔7 of a 128-bit identifier. -/
def ftd_uuid_to_uuid (f : Fin 16 → Nat) : Fin 16 → Nat :=
  swapBytes (swapBytes (swapBytes (swapBytes f 0 3) 1 2) 4 5) 6 7

/-! ## Breadboard wires and expressions (src/breadboard/mod.rs, evaluator.rs) -/

/-- Embedding of `LineInner`: the output line of a breadboard component,
identified by component index and output index. -/
structure LineInner where
  component_index : Nat
  output_index : Nat
deriving DecidableEq, Repr

/-- Embedding of `Line<T>` (the phantom value-kind parameter is erased): a
wire handle carrying its `LineInner` and the identity of the owning
`Breadboard` (the source compares `&Breadboard` pointers; the model gives
every breadboard a numeric identity). -/
structure Line where
  inner : LineInner
  breadboard : Nat
deriving DecidableEq, Repr

/-- Embedding of the `EvaluatorExpression` enum of src/breadboard/evaluator.rs.
`Int` holds an `i64` (modelled as `Int`); `Float` holds an `f64` (modelled
as `ℚ`). -/
inductive EvaluatorExpression where
  | InputA
  | InputB
  | InputC
  | InputD
  | InputE
  | Int (val : Int)
  | Float (val : ℚ)
  | Sin (val : EvaluatorExpression)
  | Cos (val : EvaluatorExpression)
  | Tan (val : EvaluatorExpression)
  | Sqrt (val : EvaluatorExpression)
  | Asin (val : EvaluatorExpression)
  | Acos (val : EvaluatorExpression)
  | Atan (val : EvaluatorExpression)
  | Atan2 (val1 val2 : EvaluatorExpression)
  | Exp (val : EvaluatorExpression)
  | Log (val : EvaluatorExpression)
  | Pow (val1 val2 : EvaluatorExpression)
  | Abs (val : EvaluatorExpression)
  | Sign (val : EvaluatorExpression)
  | Round (val : EvaluatorExpression)
  | Floor (val : EvaluatorExpression)
  | Ceil (val : EvaluatorExpression)
  | Max2 (val1 val2 : EvaluatorExpression)
  | Max3 (val1 val2 val3 : EvaluatorExpression)
  | MaxV (val : EvaluatorExpression)
  | Min2 (val1 val2 : EvaluatorExpression)
  | Min3 (val1 val2 val3 : EvaluatorExpression)
  | MinV (val : EvaluatorExpression)
  | If (condition true_value false_value : EvaluatorExpression)
  | Vector (val1 val2 val3 : EvaluatorExpression)
  | MakeRotationBetween (from_vector to_vector : EvaluatorExpression)
  | FromEuler (pitch yaw roll : EvaluatorExpression)
  | FromEularV (val : EvaluatorExpression)
  | ToEularV (val : EvaluatorExpression)
  | Angle (val : EvaluatorExpression)
  | Axis (val : EvaluatorExpression)
  | AngleBetween (from_vector to_vector : EvaluatorExpression)
  | SetX (vector x : EvaluatorExpression)
  | SetY (vector y : EvaluatorExpression)
  | SetZ (vector z : EvaluatorExpression)
  | OutputV (val : EvaluatorExpression)
  | Output (val : EvaluatorExpression)
  | GetX (val : EvaluatorExpression)
  | GetY (val : EvaluatorExpression)
  | GetZ (val : EvaluatorExpression)
  | Magnitude (val : EvaluatorExpression)
  | SquareMagnitude (val : EvaluatorExpression)
  | RotationInverse (val : EvaluatorExpression)
  | Add (lhs rhs : EvaluatorExpression)
  | Sub (lhs rhs : EvaluatorExpression)
  | Cross (lhs rhs : EvaluatorExpression)
  | Mul (lhs rhs : EvaluatorExpression)
  | Div (lhs rhs : EvaluatorExpression)
  | Mod (lhs rhs : EvaluatorExpression)
  | Eq (lhs rhs : EvaluatorExpression)
  | Ne (lhs rhs : EvaluatorExpression)
  | Gt (lhs rhs : EvaluatorExpression)
  | Gte (lhs rhs : EvaluatorExpression)
  | Lt (lhs rhs : EvaluatorExpression)
  | Lte (lhs rhs : EvaluatorExpression)
  | Not (val : EvaluatorExpression)
  | OpAnd (lhs rhs : EvaluatorExpression)
  | OpOr (lhs rhs : EvaluatorExpression)
  | FalseCoalesce (lhs rhs : EvaluatorExpression)
  | Negate (val : EvaluatorExpression)
deriving Repr

/-- Embedding of `EvaluatorExpression::from_input_index`: the five symbolic
input slots A..E, or `none` past the fifth. -/
def from_input_index (n : Nat) : Option EvaluatorExpression :=
  match n with
  | 0 => some .InputA
  | 1 => some .InputB
  | 2 => some .InputC
  | 3 => some .InputD
  | 4 => some .InputE
  | _ => none

/-- Embedding of the `impl Display for EvaluatorExpression` of
src/breadboard/evaluator.rs, arm for arm (including its asymmetries, such
as the missing closing parenthesis of `MakeRotationBetween` and `SetY`,
`SetZ` printing the name `setX`).  The decimal formatting of `Float`
literals is approximated by `ℚ`-notation; no claim depends on it. -/
def render : EvaluatorExpression → String
  | .InputA => "a"
  | .InputB => "b"
  | .InputC => "c"
  | .InputD => "d"
  | .InputE => "e"
  | .Int val => toString val
  | .Float val => toString val
  | .Sin val => "Sin(" ++ render val ++ ")"
  | .Cos val => "Cos(" ++ render val ++ ")"
  | .Tan val => "Tan(" ++ render val ++ ")"
  | .Sqrt val => "Sqrt(" ++ render val ++ ")"
  | .Asin val => "Asin(" ++ render val ++ ")"
  | .Acos val => "Acos(" ++ render val ++ ")"
  | .Atan val => "Atan(" ++ render val ++ ")"
  | .Atan2 val1 val2 => "Atan(" ++ render val1 ++ ", " ++ render val2 ++ ")"
  | .Exp val => "Exp(" ++ render val ++ ")"
  | .Log val => "Log(" ++ render val ++ ")"
  | .Pow val1 val2 => "Pow(" ++ render val1 ++ ", " ++ render val2 ++ ")"
  | .Abs val => "Abs(" ++ render val ++ ")"
  | .Sign val => "Sign(" ++ render val ++ ")"
  | .Round val => "Round(" ++ render val ++ ")"
  | .Floor val => "Floor(" ++ render val ++ ")"
  | .Ceil val => "Ceil(" ++ render val ++ ")"
  | .Max2 val1 val2 => "Max(" ++ render val1 ++ ", " ++ render val2 ++ ")"
  | .Max3 val1 val2 val3 =>
      "Max(" ++ render val1 ++ ", " ++ render val2 ++ ", " ++ render val3 ++ ")"
  | .MaxV val => "Max(" ++ render val ++ ")"
  | .Min2 val1 val2 => "Min(" ++ render val1 ++ ", " ++ render val2 ++ ")"
  | .Min3 val1 val2 val3 =>
      "Min(" ++ render val1 ++ ", " ++ render val2 ++ ", " ++ render val3 ++ ")"
  | .MinV val => "Min(" ++ render val ++ ")"
  | .If condition true_value false_value =>
      "If(" ++ render condition ++ ", " ++ render true_value ++ ", " ++ render false_value ++ ")"
  | .Vector val1 val2 val3 =>
      "Vector(" ++ render val1 ++ ", " ++ render val2 ++ ", " ++ render val3 ++ ")"
  | .MakeRotationBetween from_vector to_vector =>
      "FromToRot(" ++ render from_vector ++ ", " ++ render to_vector
  | .FromEuler pitch yaw roll =>
      "FromEuler(" ++ render pitch ++ ", " ++ render yaw ++ ", " ++ render roll ++ ")"
  | .FromEularV val => "FromEuler(" ++ render val ++ ")"
  | .ToEularV val => "ToEuler(" ++ render val ++ ")"
  | .Angle val => "Angle(" ++ render val ++ ")"
  | .Axis val => "Axis(" ++ render val ++ ")"
  | .AngleBetween from_vector to_vector =>
      "Angle(" ++ render from_vector ++ ", " ++ render to_vector ++ ")"
  | .SetX vector x => "setX(" ++ render vector ++ ", " ++ render x ++ ")"
  | .SetY vector y => "setX(" ++ render vector ++ ", " ++ render y ++ ")"
  | .SetZ vector z => "setX(" ++ render vector ++ ", " ++ render z ++ ")"
  | .OutputV val => "outputV(" ++ render val ++ ")"
  | .Output val => "output(" ++ render val ++ ")"
  | .GetX val => "(" ++ render val ++ ").x"
  | .GetY val => "(" ++ render val ++ ").y"
  | .GetZ val => "(" ++ render val ++ ").z"
  | .Magnitude val => "(" ++ render val ++ ").magnitude"
  | .SquareMagnitude val => "(" ++ render val ++ ").sqrMagnitude"
  | .RotationInverse val => "(" ++ render val ++ ").inverse"
  | .Add lhs rhs => "(" ++ render lhs ++ ") + (" ++ render rhs ++ ")"
  | .Sub lhs rhs => "(" ++ render lhs ++ ") - (" ++ render rhs ++ ")"
  | .Cross lhs rhs => "(" ++ render lhs ++ ") x (" ++ render rhs ++ ")"
  | .Mul lhs rhs => "(" ++ render lhs ++ ") * (" ++ render rhs ++ ")"
  | .Div lhs rhs => "(" ++ render lhs ++ ") / (" ++ render rhs ++ ")"
  | .Mod lhs rhs => "(" ++ render lhs ++ ") % (" ++ render rhs ++ ")"
  | .Eq lhs rhs => "(" ++ render lhs ++ ") = (" ++ render rhs ++ ")"
  | .Ne lhs rhs => "(" ++ render lhs ++ ") != (" ++ render rhs ++ ")"
  | .Gt lhs rhs => "(" ++ render lhs ++ ") > (" ++ render rhs ++ ")"
  | .Gte lhs rhs => "(" ++ render lhs ++ ") >= (" ++ render rhs ++ ")"
  | .Lt lhs rhs => "(" ++ render lhs ++ ") < (" ++ render rhs ++ ")"
  | .Lte lhs rhs => "(" ++ render lhs ++ ") <= (" ++ render rhs ++ ")"
  | .Not val => "!(" ++ render val ++ ")"
  | .OpAnd lhs rhs => "(" ++ render lhs ++ ") & (" ++ render rhs ++ ")"
  | .OpOr lhs rhs => "(" ++ render lhs ++ ") | (" ++ render rhs ++ ")"
  | .FalseCoalesce lhs rhs => "(" ++ render lhs ++ ") or (" ++ render rhs ++ ")"
  | .Negate val => "-(" ++ render val ++ ")"

/-- Opening parenthesis character (code point 40). -/
def lparen : Char := Char.ofNat 40

/-- Closing parenthesis character (code point 41). -/
def rparen : Char := Char.ofNat 41

/-! ## Evaluator input-slot allocation (src/breadboard/evaluator.rs) -/

/-- Scan loop of `Evaluator::get_input`: the index of the first occurrence
of `w` in the input list, if any (`for (i, input) in self.inputs.iter().enumerate()`). -/
def findInputIdx : List LineInner → LineInner → Option Nat
  | [], _ => none
  | x :: xs, w => if w = x then some 0 else (findInputIdx xs w).map (· + 1)

/-- Embedding of `Evaluator::get_input`, with the evaluator's `inputs`
vector passed and returned explicitly: an already-seen wire returns its
existing slot and leaves the state unchanged; a new wire takes the next
slot if one of A..E is free (appending it to the state), and yields `none`
otherwise. -/
def get_input (inputs : List LineInner) (w : LineInner) :
    Option EvaluatorExpression × List LineInner :=
  match findInputIdx inputs w with
  | some i => (from_input_index i, inputs)
  | none =>
    match from_input_index inputs.length with
    | some e => (some e, inputs ++ [w])
    | none => (none, inputs)

/-- Embedding of the `Evaluator` component: deduplicated input wires plus
one expression per output. -/
structure Evaluator where
  inputs : List LineInner
  exprs : List EvaluatorExpression

/-- Entry payloads of the container format (`DataEntry` of src/ftd_data.rs),
restricted to the variants the breadboard claims touch; `f32` is modelled
as `ℚ`. -/
inductive DataEntryM where
  | boolE (val : Bool)
  | u32E (val : Nat)
  | f32E (val : ℚ)
  | stringE (val : String)
  | bytesE (val : List Nat)
deriving DecidableEq, Repr

/-- Embedding of `<Evaluator as Component>::section_data`: the expressions
are rendered, joined with commas, and stored as the single string entry 0. -/
def Evaluator.section_data (ev : Evaluator) : List (Nat × DataEntryM) :=
  [(0, .stringE (String.intercalate "," (ev.exprs.map render)))]

/-! ## Breadboard components and builder methods (src/breadboard/mod.rs) -/

/-- Embedding of the component variants of src/breadboard/mod.rs (the boxed
`dyn Component` values stored in `Breadboard::components`); `f32`
parameters are modelled as `ℚ`, enum-typed sensor modes as `Nat`. -/
inductive Component where
  | constantC (n : ℚ)
  | randomInputC (min max : ℚ)
  | altitudeC (typ : Nat)
  | positionC
  | speedC (typ : Nat)
  | velocityC (typ : Nat)
  | targetInfoC
  | multiplyC (multiplier : ℚ) (inputs : List LineInner)
  | switchC (passthrough switch_signal : LineInner) (threshhold open_value : ℚ)
  | evaluatorC (ev : Evaluator)

/-- Embedding of `Component::inputs` for every variant (`Switch` stores the
fixed pair `[passthrough, switch_signal]`). -/
def Component.inputsOf : Component → List LineInner
  | .multiplyC _ ins => ins
  | .switchC p s _ _ => [p, s]
  | .evaluatorC ev => ev.inputs
  | _ => []

/-- Embedding of `Component::num_outputs` for every variant. -/
def Component.num_outputs : Component → Nat
  | .targetInfoC => 7
  | .evaluatorC ev => ev.exprs.length
  | _ => 1

/-- Embedding of `Breadboard`: the append-only component list, plus a
numeric identity standing for the pointer identity the source compares in
`verify_line`. -/
structure Breadboard where
  id : Nat
  components : List Component

/-- Embedding of `Breadboard::verify_line`: the pointer-identity assertion
`self as *const _ == line.breadboard as *const _`, as a boolean. -/
def verify_line (bb : Breadboard) (line : Line) : Bool :=
  bb.id == line.breadboard

/-- Embedding of `Breadboard::insert_component`: push the component and
return its index (the length before the push). -/
def insert_component (bb : Breadboard) (c : Component) : Breadboard × Nat :=
  (⟨bb.id, bb.components ++ [c]⟩, bb.components.length)

/-- Embedding of `Breadboard::insert_component_with_output`: insert and
return the handle of output 0 of the new component. -/
def insert_component_with_output (bb : Breadboard) (c : Component) : Breadboard × Line :=
  ((insert_component bb c).1, ⟨⟨(insert_component bb c).2, 0⟩, bb.id⟩)

/-- Embedding of Rust `f32::clamp` (for the non-NaN values the model
covers): `if self < min { min } else if self > max { max } else { self }`. -/
def clampF32 (x lo hi : ℚ) : ℚ :=
  if x < lo then lo else if hi < x then hi else x

/-- Embedding of `Breadboard::constant`: appends a `Constant` component
holding the argument clamped to [-10000, 10000]; the return type is total,
so out-of-range input is never rejected. -/
def constant (bb : Breadboard) (n : ℚ) : Breadboard × Line :=
  insert_component_with_output bb (.constantC (clampF32 n (-10000) 10000))

/-- Embedding of `Breadboard::random_number`: both bounds clamped, the
upper one to `[clamped_min, 10000]`. -/
def random_number (bb : Breadboard) (mn mx : ℚ) : Breadboard × Line :=
  insert_component_with_output bb
    (.randomInputC (clampF32 mn (-10000) 10000) (clampF32 mx (clampF32 mn (-10000) 10000) 10000))

/-- Embedding of `Breadboard::altitude`. -/
def altitude (bb : Breadboard) (typ : Nat) : Breadboard × Line :=
  insert_component_with_output bb (.altitudeC typ)

/-- Embedding of `Breadboard::position`. -/
def position (bb : Breadboard) : Breadboard × Line :=
  insert_component_with_output bb .positionC

/-- Embedding of `Breadboard::speed`. -/
def speed (bb : Breadboard) (typ : Nat) : Breadboard × Line :=
  insert_component_with_output bb (.speedC typ)

/-- Embedding of `Breadboard::velocity`. -/
def velocity (bb : Breadboard) (typ : Nat) : Breadboard × Line :=
  insert_component_with_output bb (.velocityC typ)

/-- Embedding of `Breadboard::target_info`: inserts the seven-output sensor
and returns its component index (the source wraps the index into seven
`Line` handles sharing that index). -/
def target_info (bb : Breadboard) : Breadboard × Nat :=
  insert_component bb .targetInfoC

/-- Embedding of `Breadboard::multiply`: the multiplier is clamped to
[-100, 100]; the input group's wires are stored without any ownership
check (the source marks this with a FIXME). -/
def multiply (bb : Breadboard) (inputs : List LineInner) (multiplier : ℚ) :
    Breadboard × Line :=
  insert_component_with_output bb (.multiplyC (clampF32 multiplier (-100) 100) inputs)

/-- Embedding of `Breadboard::switch`: both handles pass through
`verify_line` (modelled as `none` on failure, for the panicking assert);
threshold and open value are clamped to [-10000, 10000]. -/
def switch (bb : Breadboard) (passthrough switch_signal : Line)
    (threshhold open_value : ℚ) : Option (Breadboard × Line) :=
  if verify_line bb passthrough && verify_line bb switch_signal then
    some (insert_component_with_output bb
      (.switchC passthrough.inner switch_signal.inner
        (clampF32 threshhold (-10000) 10000) (clampF32 open_value (-10000) 10000)))
  else none

/-- Embedding of `Breadboard::evaluator_expr`: checks `verify_line` on its
single wire argument, allocates its input slot on a fresh `Evaluator`
(`none` models the panic of the source's `.unwrap()`), and appends the
evaluator with one expression. -/
def evaluator_expr (bb : Breadboard) (val1 : Line)
    (expr_fn : EvaluatorExpression → EvaluatorExpression) : Option (Breadboard × Line) :=
  if verify_line bb val1 then
    match (get_input [] val1.inner).1 with
    | none => none
    | some e1 =>
      some (insert_component_with_output bb
        (.evaluatorC ⟨(get_input [] val1.inner).2, [expr_fn e1]⟩))
  else none

/-- Embedding of `Breadboard::evaluator_expr2`.  As in the source, only the
first wire argument goes through `verify_line`; the second is used
unchecked. -/
def evaluator_expr2 (bb : Breadboard) (val1 val2 : Line)
    (expr_fn : EvaluatorExpression → EvaluatorExpression → EvaluatorExpression) :
    Option (Breadboard × Line) :=
  if verify_line bb val1 then
    match (get_input [] val1.inner).1 with
    | none => none
    | some e1 =>
      match (get_input (get_input [] val1.inner).2 val2.inner).1 with
      | none => none
      | some e2 =>
        some (insert_component_with_output bb
          (.evaluatorC ⟨(get_input (get_input [] val1.inner).2 val2.inner).2,
            [expr_fn e1 e2]⟩))
  else none

/-- Embedding of `Breadboard::evaluator_expr3`.  As in the source, only the
first wire argument goes through `verify_line`; the second and third are
used unchecked. -/
def evaluator_expr3 (bb : Breadboard) (val1 val2 val3 : Line)
    (expr_fn : EvaluatorExpression → EvaluatorExpression → EvaluatorExpression →
      EvaluatorExpression) : Option (Breadboard × Line) :=
  if verify_line bb val1 then
    match (get_input [] val1.inner).1 with
    | none => none
    | some e1 =>
      match (get_input (get_input [] val1.inner).2 val2.inner).1 with
      | none => none
      | some e2 =>
        match (get_input (get_input (get_input [] val1.inner).2 val2.inner).2 val3.inner).1 with
        | none => none
        | some e3 =>
          some (insert_component_with_output bb
            (.evaluatorC
              ⟨(get_input (get_input (get_input [] val1.inner).2 val2.inner).2 val3.inner).2,
                [expr_fn e1 e2 e3]⟩))
  else none

/-! ## Traces of public builder calls, for the acyclicity invariant -/

/-- One public graph-building call, with its wire-handle arguments given as
the `LineInner` of handles previously returned by the same breadboard
(whose `Line.breadboard` field therefore equals the board's identity). -/
inductive TraceOp where
  | constantOp (n : ℚ)
  | randomNumberOp (mn mx : ℚ)
  | altitudeOp (typ : Nat)
  | positionOp
  | speedOp (typ : Nat)
  | velocityOp (typ : Nat)
  | targetInfoOp
  | multiplyOp (multiplier : ℚ) (refs : List LineInner)
  | switchOp (passthrough switch_signal : LineInner) (threshhold open_value : ℚ)
  | expr1Op (a : LineInner)
  | expr2Op (a b : LineInner)
  | expr3Op (a b c : LineInner)

/-- Wire-handle arguments of a builder call. -/
def TraceOp.refs : TraceOp → List LineInner
  | .multiplyOp _ rs => rs
  | .switchOp p s _ _ => [p, s]
  | .expr1Op a => [a]
  | .expr2Op a b => [a, b]
  | .expr3Op a b c => [a, b, c]
  | _ => []

/-- Execution of one builder call on a breadboard, the wire handles being
rebuilt with the board's own identity (they were created by this board).
Expression-shaped calls use representative operators; the stored wiring
does not depend on the operator. -/
def apply_op (bb : Breadboard) : TraceOp → Option Breadboard
  | .constantOp n => some (constant bb n).1
  | .randomNumberOp mn mx => some (random_number bb mn mx).1
  | .altitudeOp typ => some (altitude bb typ).1
  | .positionOp => some (position bb).1
  | .speedOp typ => some (speed bb typ).1
  | .velocityOp typ => some (velocity bb typ).1
  | .targetInfoOp => some (target_info bb).1
  | .multiplyOp m rs => some (multiply bb rs m).1
  | .switchOp p s t o => (switch bb ⟨p, bb.id⟩ ⟨s, bb.id⟩ t o).map Prod.fst
  | .expr1Op a => (evaluator_expr bb ⟨a, bb.id⟩ .Negate).map Prod.fst
  | .expr2Op a b => (evaluator_expr2 bb ⟨a, bb.id⟩ ⟨b, bb.id⟩ .Add).map Prod.fst
  | .expr3Op a b c => (evaluator_expr3 bb ⟨a, bb.id⟩ ⟨b, bb.id⟩ ⟨c, bb.id⟩ .If).map Prod.fst

/-- Execution of a sequence of builder calls; `none` if any call panics. -/
def run_trace : Breadboard → List TraceOp → Option Breadboard
  | bb, [] => some bb
  | bb, op :: ops =>
    match apply_op bb op with
    | none => none
    | some bb2 => run_trace bb2 ops

/-- Well-formedness of a trace against a starting component count: every
wire handle passed to a call was created by one of the components existing
when the call is made (each call appends exactly one component, so the
count at step k is `len0 + k`).  This is exactly what handles minted by
the same breadboard satisfy. -/
def TraceWF : Nat → List TraceOp → Prop
  | _, [] => True
  | len0, op :: ops =>
    (∀ w ∈ op.refs, w.component_index < len0) ∧ TraceWF (len0 + 1) ops

/-- Acyclicity of a component list: every stored input wire references a
strictly earlier component. -/
def AcyclicComponents (cs : List Component) : Prop :=
  ∀ (i : Nat) (h : i < cs.length), ∀ w ∈ cs[i].inputsOf, w.component_index < i

/-- Acyclicity of a breadboard. -/
def Acyclic (bb : Breadboard) : Prop :=
  AcyclicComponents bb.components

/-! ## Helper lemmas for the chunked byte encoder -/

theorem byteChunks_ne_nil (data : List Nat) : byteChunks data ≠ [] := by
  rw [byteChunks]
  exact List.cons_ne_nil _ _

theorem renderChunks_of_ne_nil (entryId : Nat) (l : List (List Nat)) (h : l ≠ []) :
    push_u16 entryId ++ renderChunks entryId l = (l.map (renderChunk entryId)).flatten := by
  cases l with
  | nil => exact absurd rfl h
  | cons c cs => simp [renderChunks, renderChunk, List.append_assoc]

theorem serialize_bytes_eq_renderChunks (data : List Nat) (entryId : Nat) :
    serialize_bytes data entryId = renderChunks entryId (byteChunks data) := by
  induction data using byteChunks.induct with
  | _ data ih =>
    rw [serialize_bytes, byteChunks]
    by_cases h : (data.drop (min data.length 255)).length = 0
    · simp only [h, if_pos rfl, if_true, renderChunks]
      simp [List.length_take]
    · rw [if_neg h, if_neg h, renderChunks]
      rw [ih h]
      rw [List.append_assoc, List.append_assoc]
      congr 1
      · simp [List.length_take]
      · congr 1
        exact renderChunks_of_ne_nil entryId _ (byteChunks_ne_nil _)

theorem byteChunks_count (data : List Nat) :
    (byteChunks data).length = if data.length = 0 then 1 else (data.length + 254) / 255 := by
  induction data using byteChunks.induct with
  | _ data ih =>
    rw [byteChunks]
    by_cases h : (data.drop (min data.length 255)).length = 0
    · rw [if_pos h]
      simp only [List.length_cons, List.length_nil]
      simp only [List.length_drop] at h
      split <;> omega
    · rw [if_neg h]
      simp only [List.length_cons]
      rw [ih h]
      simp only [List.length_drop] at h ⊢
      rw [if_neg h]
      rcases Nat.eq_zero_or_pos data.length with hd | hd
      · exact absurd (by omega) h
      · rw [if_neg (by omega)]
        omega

theorem byteChunks_le_255 (data : List Nat) :
    ∀ c ∈ byteChunks data, c.length ≤ 255 := by
  induction data using byteChunks.induct with
  | _ data ih =>
    rw [byteChunks]
    intro c hc
    by_cases h : (data.drop (min data.length 255)).length = 0
    · simp only [h, if_pos rfl, if_true, List.mem_singleton] at hc
      subst hc
      simp [List.length_take]
    · rw [if_neg h] at hc
      rcases List.mem_cons.mp hc with h1 | h2
      · subst h1
        simp [List.length_take]
      · exact ih h c h2

theorem byteChunks_flatten (data : List Nat) :
    (byteChunks data).flatten = data := by
  induction data using byteChunks.induct with
  | _ data ih =>
    rw [byteChunks]
    by_cases h : (data.drop (min data.length 255)).length = 0
    · simp only [h, if_pos rfl, if_true, List.flatten_cons, List.flatten_nil, List.append_nil]
      simp only [List.length_drop] at h
      exact List.take_of_length_le (by omega)
    · rw [if_neg h]
      rw [List.flatten_cons, ih h]
      exact List.take_append_drop _ _

/-! ## Helper lemmas for the body-length word sequence -/

theorem bodyLengthWords_spec (b : Nat) :
    ∃ ws w, bodyLengthWords b = ws ++ [w] ∧ (∀ x ∈ ws, x = 65535) ∧
      w < 65535 ∧ ws.sum + w = b := by
  induction b using bodyLengthWords.induct with
  | case1 b hle ih =>
    rw [bodyLengthWords, if_pos hle]
    obtain ⟨ws, w, heq, hws, hw, hsum⟩ := ih
    refine ⟨65535 :: ws, w, by rw [heq, List.cons_append], ?_, hw, ?_⟩
    · intro x hx
      rcases List.mem_cons.mp hx with h1 | h2
      · exact h1
      · exact hws x h2
    · simp only [List.sum_cons]
      omega
  | case2 b hle =>
    rw [bodyLengthWords, if_neg hle]
    exact ⟨[], b, rfl, by simp, by omega, by simp⟩

theorem serialize_body_length_eq_words (b : Nat) :
    serialize_body_length b = ((bodyLengthWords b).map push_u16).flatten := by
  induction b using bodyLengthWords.induct with
  | case1 b hle ih =>
    rw [serialize_body_length, bodyLengthWords, if_pos hle, if_pos hle, List.map_cons,
      List.flatten_cons, ih]
  | case2 b hle =>
    rw [serialize_body_length, bodyLengthWords, if_neg hle, if_neg hle]
    simp

/-! ## Helper lemmas for input-slot allocation -/

theorem findInputIdx_eq_none_iff (inputs : List LineInner) (w : LineInner) :
    findInputIdx inputs w = none ↔ w ∉ inputs := by
  induction inputs with
  | nil => simp [findInputIdx]
  | cons x xs ih =>
    simp only [findInputIdx, List.mem_cons]
    by_cases h : w = x
    · simp [h]
    · simp [h, Option.map_eq_none', ih]

theorem findInputIdx_lt_length (inputs : List LineInner) (w : LineInner) (i : Nat)
    (h : findInputIdx inputs w = some i) : i < inputs.length := by
  induction inputs generalizing i with
  | nil => simp [findInputIdx] at h
  | cons x xs ih =>
    simp only [findInputIdx] at h
    by_cases hw : w = x
    · rw [if_pos hw] at h
      cases h
      simp
    · rw [if_neg hw] at h
      rcases hj : findInputIdx xs w with _ | j
      · rw [hj] at h
        simp at h
      · rw [hj] at h
        simp at h
        have := ih j hj
        simp only [List.length_cons]
        omega

theorem findInputIdx_append_self (inputs : List LineInner) (w : LineInner)
    (h : findInputIdx inputs w = none) :
    findInputIdx (inputs ++ [w]) w = some inputs.length := by
  induction inputs with
  | nil =>
    rw [List.nil_append]
    simp [findInputIdx]
  | cons x xs ih =>
    rw [List.cons_append]
    simp only [findInputIdx] at h ⊢
    by_cases hw : w = x
    · rw [if_pos hw] at h
      simp at h
    · rw [if_neg hw] at h ⊢
      rw [ih (Option.map_eq_none'.mp h)]
      simp

theorem from_input_index_isSome {n : Nat} (h : n < 5) : (from_input_index n).isSome := by
  interval_cases n <;> rfl

theorem from_input_index_eq_none {n : Nat} (h : 5 ≤ n) : from_input_index n = none := by
  match n, h with
  | n + 5, _ => rfl

theorem get_input_snd (inputs : List LineInner) (w : LineInner) :
    (get_input inputs w).2 = inputs ∨ (get_input inputs w).2 = inputs ++ [w] := by
  rw [get_input]
  rcases hf : findInputIdx inputs w with _ | i
  · rcases he : from_input_index inputs.length with _ | e
    · simp [he]
    · simp [he]
  · simp

theorem get_input_snd_mem (inputs : List LineInner) (w x : LineInner)
    (hx : x ∈ (get_input inputs w).2) : x ∈ inputs ∨ x = w := by
  rcases get_input_snd inputs w with h | h
  · rw [h] at hx
    exact Or.inl hx
  · rw [h] at hx
    rcases List.mem_append.mp hx with h1 | h2
    · exact Or.inl h1
    · exact Or.inr (List.mem_singleton.mp h2)

theorem get_input_snd_length (inputs : List LineInner) (w : LineInner) :
    (get_input inputs w).2.length ≤ inputs.length + 1 := by
  rcases get_input_snd inputs w with h | h <;> rw [h] <;> simp

theorem get_input_isSome (inputs : List LineInner) (w : LineInner)
    (h : inputs.length < 5) : (get_input inputs w).1.isSome := by
  rw [get_input]
  rcases hf : findInputIdx inputs w with _ | i
  · obtain ⟨e, he⟩ := Option.isSome_iff_exists.mp (from_input_index_isSome h)
    simp [he]
  · simpa using from_input_index_isSome (lt_trans (findInputIdx_lt_length inputs w i hf) h)

/-! ## Claim theorems: legacy codec primitives -/

/-- C1: Serializing a section header's 4-byte offset field uses the
word-swapped 32-bit encoding: the high 16 bits of the offset are written
first as a little-endian 2-byte field, then the low 16 bits as a second
little-endian 2-byte field; in particular, encoding the offset 0x12345678
produces exactly the four bytes 34 12 78 56. -/
theorem wierd_u32_word_swapped_encoding :
    (∀ n : Nat, push_wierd_u32 n =
      [n / 65536 % 256, n / 65536 / 256 % 256, n % 256, n / 256 % 256]) ∧
    push_wierd_u32 0x12345678 = [0x34, 0x12, 0x78, 0x56] := by
  constructor
  · intro n
    simp only [push_wierd_u32, push_u16, List.cons_append, List.nil_append, List.cons.injEq,
      and_true]
    omega
  · decide

/-- C2: For every byte or string entry payload of length L, the chunked
encoder emits exactly ceil(L/255) chunks (exactly one chunk of length 0
when L = 0), each chunk at most 255 bytes and prefixed by a 1-byte length,
every chunk after the first preceded by a re-emission of the same 2-byte
entry id, and the concatenation of all chunk payloads in emission order
equals the original byte sequence. -/
theorem serialize_bytes_chunking (data : List Nat) (entryId : Nat) :
    serialize_bytes data entryId = renderChunks entryId (byteChunks data) ∧
    (byteChunks data).length = (if data.length = 0 then 1 else (data.length + 254) / 255) ∧
    (∀ c ∈ byteChunks data, c.length ≤ 255) ∧
    (byteChunks data).flatten = data :=
  ⟨serialize_bytes_eq_renderChunks data entryId, byteChunks_count data,
    byteChunks_le_255 data, byteChunks_flatten data⟩

/-- C3: For every non-negative block body length B, the serialized blueprint
encodes B as a sequence of one or more 2-byte little-endian words such that
the sum of all words equals B, every word before the last equals 65535, and
the final word is strictly less than 65535 (so the sequence always
terminates with a word below 65535, including the word 0 when B is a
multiple of 65535). -/
theorem body_length_word_sequence (b : Nat) :
    serialize_body_length b = ((bodyLengthWords b).map push_u16).flatten ∧
    ∃ ws w, bodyLengthWords b = ws ++ [w] ∧ (∀ x ∈ ws, x = 65535) ∧
      w < 65535 ∧ ws.sum + w = b :=
  ⟨serialize_body_length_eq_words b, bodyLengthWords_spec b⟩

/-- C4: For every 128-bit identifier, applying the byte-permutation function
(ftd_uuid_to_uuid) twice returns the original identifier: the function swaps
byte pairs at positions 0↔3, 1↔2, 4↔5, 6↔7 and is an involution. -/
theorem ftd_uuid_to_uuid_involution (f : Fin 16 → Nat) :
    ftd_uuid_to_uuid (ftd_uuid_to_uuid f) = f ∧
    ftd_uuid_to_uuid f 0 = f 3 ∧ ftd_uuid_to_uuid f 3 = f 0 ∧
    ftd_uuid_to_uuid f 1 = f 2 ∧ ftd_uuid_to_uuid f 2 = f 1 ∧
    ftd_uuid_to_uuid f 4 = f 5 ∧ ftd_uuid_to_uuid f 5 = f 4 ∧
    ftd_uuid_to_uuid f 6 = f 7 ∧ ftd_uuid_to_uuid f 7 = f 6 ∧
    ∀ i : Fin 16, 8 ≤ i.val → ftd_uuid_to_uuid f i = f i := by
  refine ⟨funext fun i => ?_, rfl, rfl, rfl, rfl, rfl, rfl, rfl, rfl, fun i hi => ?_⟩
  · fin_cases i <;> rfl
  · fin_cases i <;> first | rfl | simp at hi

/-- Witness for C4: the involution and the fixed-point property at byte
position 8, applied to the identity byte pattern. -/
theorem ftd_uuid_to_uuid_involution_witness :
    ftd_uuid_to_uuid (ftd_uuid_to_uuid (fun i : Fin 16 => (i.val : Nat))) =
      (fun i : Fin 16 => (i.val : Nat)) ∧
    ftd_uuid_to_uuid (fun i : Fin 16 => (i.val : Nat)) 8 = 8 :=
  ⟨(ftd_uuid_to_uuid_involution _).1,
   (ftd_uuid_to_uuid_involution
     (fun i : Fin 16 => (i.val : Nat))).2.2.2.2.2.2.2.2.2 8 (by decide)⟩

/-! ## Claim theorems: evaluator input slots -/

/-- C5: Within one expression node, distinct input wires are assigned slots
A..E in first-seen order; requesting the same input wire a second time
returns the already-assigned slot and consumes exactly one slot (not two),
and requesting a 6th distinct input wire fails (slot allocation returns no
slot available / None). -/
theorem input_slot_allocation :
    (∀ (inputs : List LineInner) (w : LineInner), w ∉ inputs → inputs.length < 5 →
      get_input inputs w = (from_input_index inputs.length, inputs ++ [w]) ∧
      (from_input_index inputs.length).isSome) ∧
    (∀ (inputs inputs' : List LineInner) (w : LineInner) (e : EvaluatorExpression),
      get_input inputs w = (some e, inputs') → get_input inputs' w = (some e, inputs')) ∧
    (∀ (inputs : List LineInner) (w : LineInner), w ∉ inputs → 5 ≤ inputs.length →
      get_input inputs w = (none, inputs)) := by
  refine ⟨?_, ?_, ?_⟩
  · intro inputs w hmem hlen
    have hf : findInputIdx inputs w = none := (findInputIdx_eq_none_iff inputs w).mpr hmem
    obtain ⟨e, he⟩ := Option.isSome_iff_exists.mp (from_input_index_isSome hlen)
    exact ⟨by simp [get_input, hf, he], by simp [he]⟩
  · intro inputs inputs' w e hgi
    rw [get_input] at hgi
    rcases hf : findInputIdx inputs w with _ | i
    · rw [hf] at hgi
      rcases he : from_input_index inputs.length with _ | e0
      · rw [he] at hgi
        simp at hgi
      · rw [he] at hgi
        simp only [Prod.mk.injEq, Option.some.injEq] at hgi
        obtain ⟨he0, hin⟩ := hgi
        subst he0
        subst hin
        have hfa := findInputIdx_append_self inputs w hf
        simp [get_input, hfa, he]
    · rw [hf] at hgi
      simp only [Prod.mk.injEq] at hgi
      obtain ⟨h1, h2⟩ := hgi
      subst h2
      simp [get_input, hf, h1]
  · intro inputs w hmem hlen
    have hf : findInputIdx inputs w = none := (findInputIdx_eq_none_iff inputs w).mpr hmem
    have he := from_input_index_eq_none hlen
    simp [get_input, hf, he]

/-- Witness for C5: the three parts of `input_slot_allocation` applied at
concrete inputs: a 6th distinct wire is refused, a first wire takes slot A,
and requesting the same wire again returns slot A without consuming a
second slot. -/
theorem input_slot_allocation_witness :
    get_input [⟨0, 0⟩, ⟨1, 0⟩, ⟨2, 0⟩, ⟨3, 0⟩, ⟨4, 0⟩] ⟨5, 0⟩ =
      (none, [⟨0, 0⟩, ⟨1, 0⟩, ⟨2, 0⟩, ⟨3, 0⟩, ⟨4, 0⟩]) ∧
    get_input [] ⟨7, 1⟩ = (some .InputA, [⟨7, 1⟩]) ∧
    get_input [⟨7, 1⟩] ⟨7, 1⟩ = (some .InputA, [⟨7, 1⟩]) :=
  ⟨input_slot_allocation.2.2 _ _ (by decide) (by decide),
   (input_slot_allocation.1 _ _ (by decide) (by decide)).1,
   input_slot_allocation.2.1 _ _ _ _
     ((input_slot_allocation.1 [] ⟨7, 1⟩ (by decide) (by decide)).1)⟩

/-! ## Claim theorems: builder methods -/

/-- C6: the claim states that every wire-handle operand position of every
graph-building operation is checked against the owning breadboard.  The
code checks only the first operand of `evaluator_expr2`/`evaluator_expr3`
(and none of `multiply`'s input group, marked FIXME in the source): here a
handle whose owner identity (0) differs from the breadboard (1) fails
`verify_line`, yet `evaluator_expr2` succeeds and silently wires it in as
the second operand. -/
theorem cross_graph_second_operand_unchecked :
    verify_line ⟨1, [Component.constantC 1, Component.constantC 2]⟩ ⟨⟨0, 0⟩, 0⟩ = false ∧
    evaluator_expr2 ⟨1, [Component.constantC 1, Component.constantC 2]⟩
        ⟨⟨1, 0⟩, 1⟩ ⟨⟨0, 0⟩, 0⟩ .Add =
      some (⟨1, [Component.constantC 1, Component.constantC 2,
          Component.evaluatorC ⟨[⟨1, 0⟩, ⟨0, 0⟩], [.Add .InputA .InputB]⟩]⟩,
        ⟨⟨2, 0⟩, 1⟩) :=
  ⟨rfl, rfl⟩

/-- C7: constant(n) clamps its argument to the range [-10000, 10000] before
storing it in the appended Constant node and never rejects out-of-range
input with an error (the embedded `constant` is total): in particular
constant(20000.0) stores 10000.0 and constant(-20000.0) stores -10000.0. -/
theorem constant_clamps (bb : Breadboard) (n : ℚ) :
    (constant bb n).1.components =
      bb.components ++ [.constantC (clampF32 n (-10000) 10000)] ∧
    (constant bb 20000).1.components = bb.components ++ [.constantC 10000] ∧
    (constant bb (-20000)).1.components = bb.components ++ [.constantC (-10000)] := by
  refine ⟨rfl, ?_, ?_⟩
  · simp only [constant, insert_component_with_output, insert_component, clampF32]
    norm_num
  · simp only [constant, insert_component_with_output, insert_component, clampF32]
    norm_num

/-- C8: the claim states that every sub-expression is printed with its
operator's canonical name and fully parenthesized operands.  The negate
part holds (a negate node over one input renders exactly the text
expression, comma-joined into the single string entry), but the
rotation-between arm omits its closing parenthesis (unbalanced
parentheses) and the set_y/set_z arms print the name setX. -/
theorem render_negate_and_display_slips :
    render (.Negate .InputA) = "-(a)" ∧
    Evaluator.section_data ⟨[⟨0, 0⟩], [.Negate .InputA]⟩ = [(0, .stringE "-(a)")] ∧
    Evaluator.section_data ⟨[⟨0, 0⟩, ⟨1, 0⟩], [.InputA, .Negate .InputB]⟩ =
      [(0, .stringE "a,-(b)")] ∧
    render (.MakeRotationBetween .InputA .InputB) = "FromToRot(a, b" ∧
    (render (.MakeRotationBetween .InputA .InputB)).toList.count lparen ≠
      (render (.MakeRotationBetween .InputA .InputB)).toList.count rparen ∧
    render (.SetY .InputA .InputB) = "setX(a, b)" ∧
    render (.SetZ .InputA .InputB) = "setX(a, b)" := by
  refine ⟨by decide, by decide, by decide, by decide, by decide, by decide, by decide⟩

/-! ## Claim theorems: unwrap safety of the expression builders -/

/-- C10: Every public expression-building method constructs its expression
node from at most 3 wire-handle arguments, so slot allocation on the
freshly created Evaluator always succeeds (get_input never returns None
while fewer than 5 distinct wires are assigned) and the internal unwrap of
the slot-allocation result in evaluator_expr, evaluator_expr2 and
evaluator_expr3 can never panic through the public API (the only `none`
they can produce is the ownership assert on the first argument). -/
theorem expr_builder_unwrap_never_panics :
    (∀ (inputs : List LineInner) (w : LineInner), inputs.length < 5 →
      (get_input inputs w).1.isSome) ∧
    (∀ (bb : Breadboard) (v1 : Line) (f : EvaluatorExpression → EvaluatorExpression),
      verify_line bb v1 = true → (evaluator_expr bb v1 f).isSome) ∧
    (∀ (bb : Breadboard) (v1 v2 : Line)
      (f : EvaluatorExpression → EvaluatorExpression → EvaluatorExpression),
      verify_line bb v1 = true → (evaluator_expr2 bb v1 v2 f).isSome) ∧
    (∀ (bb : Breadboard) (v1 v2 v3 : Line)
      (f : EvaluatorExpression → EvaluatorExpression → EvaluatorExpression →
        EvaluatorExpression),
      verify_line bb v1 = true → (evaluator_expr3 bb v1 v2 v3 f).isSome) := by
  refine ⟨get_input_isSome, ?_, ?_, ?_⟩
  · intro bb v1 f h
    simp only [evaluator_expr, h, reduceIte]
    split
    · next heq =>
      have hs := get_input_isSome [] v1.inner (by simp)
      rw [heq] at hs
      simp at hs
    · rfl
  · intro bb v1 v2 f h
    have l1 : (get_input [] v1.inner).2.length ≤ 1 := by
      simpa using get_input_snd_length [] v1.inner
    simp only [evaluator_expr2, h, reduceIte]
    split
    · next heq =>
      have hs := get_input_isSome [] v1.inner (by simp)
      rw [heq] at hs
      simp at hs
    · split
      · next heq =>
        have hs := get_input_isSome (get_input [] v1.inner).2 v2.inner (by omega)
        rw [heq] at hs
        simp at hs
      · rfl
  · intro bb v1 v2 v3 f h
    have l1 : (get_input [] v1.inner).2.length ≤ 1 := by
      simpa using get_input_snd_length [] v1.inner
    have l2 : (get_input (get_input [] v1.inner).2 v2.inner).2.length ≤ 2 := by
      have := get_input_snd_length (get_input [] v1.inner).2 v2.inner
      omega
    simp only [evaluator_expr3, h, reduceIte]
    split
    · next heq =>
      have hs := get_input_isSome [] v1.inner (by simp)
      rw [heq] at hs
      simp at hs
    · split
      · next heq =>
        have hs := get_input_isSome (get_input [] v1.inner).2 v2.inner (by omega)
        rw [heq] at hs
        simp at hs
      · split
        · next heq =>
          have hs := get_input_isSome
            (get_input (get_input [] v1.inner).2 v2.inner).2 v3.inner (by omega)
          rw [heq] at hs
          simp at hs
        · rfl

/-- Witness for C10: the theorem applied to a concrete breadboard, with
all three wires of a ternary expression call being the same valid handle. -/
theorem expr_builder_unwrap_never_panics_witness :
    (evaluator_expr3 ⟨0, [Component.constantC 5]⟩ ⟨⟨0, 0⟩, 0⟩ ⟨⟨0, 0⟩, 0⟩ ⟨⟨0, 0⟩, 0⟩
      .If).isSome :=
  expr_builder_unwrap_never_panics.2.2.2 _ _ _ _ _ rfl

/-! ## Helper lemmas for the acyclicity invariant -/

theorem switch_spec (bb : Breadboard) (p s : LineInner) (t o : ℚ) :
    switch bb ⟨p, bb.id⟩ ⟨s, bb.id⟩ t o =
      some (insert_component_with_output bb
        (.switchC p s (clampF32 t (-10000) 10000) (clampF32 o (-10000) 10000))) := by
  simp [switch, verify_line]

theorem evaluator_expr_spec (bb : Breadboard) (v1 : Line)
    (f : EvaluatorExpression → EvaluatorExpression) (h : verify_line bb v1 = true) :
    ∃ ev : Evaluator,
      evaluator_expr bb v1 f = some (insert_component_with_output bb (.evaluatorC ev)) ∧
      ∀ w ∈ ev.inputs, w = v1.inner := by
  simp only [evaluator_expr, h, reduceIte]
  split
  · next heq =>
    have hs := get_input_isSome [] v1.inner (by simp)
    rw [heq] at hs
    simp at hs
  · next e1 heq =>
    refine ⟨⟨(get_input [] v1.inner).2, [f e1]⟩, rfl, ?_⟩
    intro w hw
    rcases get_input_snd_mem [] v1.inner w hw with h1 | h2
    · simp at h1
    · exact h2

theorem evaluator_expr2_spec (bb : Breadboard) (v1 v2 : Line)
    (f : EvaluatorExpression → EvaluatorExpression → EvaluatorExpression)
    (h : verify_line bb v1 = true) :
    ∃ ev : Evaluator,
      evaluator_expr2 bb v1 v2 f = some (insert_component_with_output bb (.evaluatorC ev)) ∧
      ∀ w ∈ ev.inputs, w = v1.inner ∨ w = v2.inner := by
  have l1 : (get_input [] v1.inner).2.length ≤ 1 := by
    simpa using get_input_snd_length [] v1.inner
  simp only [evaluator_expr2, h, reduceIte]
  split
  · next heq =>
    have hs := get_input_isSome [] v1.inner (by simp)
    rw [heq] at hs
    simp at hs
  · split
    · next heq =>
      have hs := get_input_isSome (get_input [] v1.inner).2 v2.inner (by omega)
      rw [heq] at hs
      simp at hs
    · next e2 heq =>
      refine ⟨⟨(get_input (get_input [] v1.inner).2 v2.inner).2, _⟩, rfl, ?_⟩
      intro w hw
      rcases get_input_snd_mem _ v2.inner w hw with h1 | h2
      · rcases get_input_snd_mem [] v1.inner w h1 with h3 | h4
        · simp at h3
        · exact Or.inl h4
      · exact Or.inr h2

theorem evaluator_expr3_spec (bb : Breadboard) (v1 v2 v3 : Line)
    (f : EvaluatorExpression → EvaluatorExpression → EvaluatorExpression →
      EvaluatorExpression) (h : verify_line bb v1 = true) :
    ∃ ev : Evaluator,
      evaluator_expr3 bb v1 v2 v3 f =
        some (insert_component_with_output bb (.evaluatorC ev)) ∧
      ∀ w ∈ ev.inputs, w = v1.inner ∨ w = v2.inner ∨ w = v3.inner := by
  have l1 : (get_input [] v1.inner).2.length ≤ 1 := by
    simpa using get_input_snd_length [] v1.inner
  have l2 : (get_input (get_input [] v1.inner).2 v2.inner).2.length ≤ 2 := by
    have := get_input_snd_length (get_input [] v1.inner).2 v2.inner
    omega
  simp only [evaluator_expr3, h, reduceIte]
  split
  · next heq =>
    have hs := get_input_isSome [] v1.inner (by simp)
    rw [heq] at hs
    simp at hs
  · split
    · next heq =>
      have hs := get_input_isSome (get_input [] v1.inner).2 v2.inner (by omega)
      rw [heq] at hs
      simp at hs
    · split
      · next heq =>
        have hs := get_input_isSome
          (get_input (get_input [] v1.inner).2 v2.inner).2 v3.inner (by omega)
        rw [heq] at hs
        simp at hs
      · next e3 heq =>
        refine ⟨⟨(get_input (get_input (get_input [] v1.inner).2 v2.inner).2 v3.inner).2, _⟩,
          rfl, ?_⟩
        intro w hw
        rcases get_input_snd_mem _ v3.inner w hw with h1 | h2
        · rcases get_input_snd_mem _ v2.inner w h1 with h3 | h4
          · rcases get_input_snd_mem [] v1.inner w h3 with h5 | h6
            · simp at h5
            · exact Or.inl h6
          · exact Or.inr (Or.inl h4)
        · exact Or.inr (Or.inr h2)

theorem verify_line_self (bb : Breadboard) (w : LineInner) :
    verify_line bb ⟨w, bb.id⟩ = true := by
  simp [verify_line]

theorem apply_op_spec (bb : Breadboard) (op : TraceOp)
    (href : ∀ w ∈ op.refs, w.component_index < bb.components.length) :
    ∃ c, apply_op bb op = some ⟨bb.id, bb.components ++ [c]⟩ ∧
      ∀ w ∈ c.inputsOf, w.component_index < bb.components.length := by
  cases op with
  | constantOp n => exact ⟨_, rfl, by simp [Component.inputsOf]⟩
  | randomNumberOp mn mx => exact ⟨_, rfl, by simp [Component.inputsOf]⟩
  | altitudeOp typ => exact ⟨_, rfl, by simp [Component.inputsOf]⟩
  | positionOp => exact ⟨_, rfl, by simp [Component.inputsOf]⟩
  | speedOp typ => exact ⟨_, rfl, by simp [Component.inputsOf]⟩
  | velocityOp typ => exact ⟨_, rfl, by simp [Component.inputsOf]⟩
  | targetInfoOp => exact ⟨_, rfl, by simp [Component.inputsOf]⟩
  | multiplyOp m rs =>
    exact ⟨_, rfl, by simpa [Component.inputsOf, TraceOp.refs] using href⟩
  | switchOp p s t o =>
    refine ⟨.switchC p s (clampF32 t (-10000) 10000) (clampF32 o (-10000) 10000), ?_, ?_⟩
    · simp [apply_op, switch_spec, insert_component_with_output, insert_component]
    · intro w hw
      apply href
      simp only [Component.inputsOf] at hw
      simpa [TraceOp.refs] using hw
  | expr1Op a =>
    obtain ⟨ev, heq, hmem⟩ :=
      evaluator_expr_spec bb ⟨a, bb.id⟩ .Negate (verify_line_self bb a)
    refine ⟨.evaluatorC ev, ?_, ?_⟩
    · simp [apply_op, heq, insert_component_with_output, insert_component]
    · intro w hw
      apply href
      have := hmem w hw
      simp [TraceOp.refs, this]
  | expr2Op a b =>
    obtain ⟨ev, heq, hmem⟩ :=
      evaluator_expr2_spec bb ⟨a, bb.id⟩ ⟨b, bb.id⟩ .Add (verify_line_self bb a)
    refine ⟨.evaluatorC ev, ?_, ?_⟩
    · simp [apply_op, heq, insert_component_with_output, insert_component]
    · intro w hw
      apply href
      have := hmem w hw
      simp only [TraceOp.refs, List.mem_cons, List.mem_singleton]
      tauto
  | expr3Op a b c =>
    obtain ⟨ev, heq, hmem⟩ :=
      evaluator_expr3_spec bb ⟨a, bb.id⟩ ⟨b, bb.id⟩ ⟨c, bb.id⟩ .If (verify_line_self bb a)
    refine ⟨.evaluatorC ev, ?_, ?_⟩
    · simp [apply_op, heq, insert_component_with_output, insert_component]
    · intro w hw
      apply href
      have := hmem w hw
      simp only [TraceOp.refs, List.mem_cons, List.mem_singleton]
      tauto

theorem AcyclicComponents_append (cs : List Component) (c : Component)
    (h0 : AcyclicComponents cs) (hc : ∀ w ∈ c.inputsOf, w.component_index < cs.length) :
    AcyclicComponents (cs ++ [c]) := by
  intro i h w hw
  rcases Nat.lt_or_ge i cs.length with hi | hi
  · rw [List.getElem_append_left hi] at hw
    exact h0 i hi w hw
  · have hieq : i = cs.length := by
      simp only [List.length_append, List.length_singleton] at h
      omega
    subst hieq
    rw [List.getElem_append_right hi] at hw
    simp only [Nat.sub_self, List.getElem_cons_zero] at hw
    exact hc w hw

/-! ## Claim theorem: acyclicity by construction -/

/-- C9: For every Breadboard built through the public API in which every
wire handle passed to a builder call was created by that same Breadboard
(trace well-formedness: each referenced component index already exists at
the time of the call, which handles minted by the same board satisfy), the
graph is acyclic by construction: every component's input wires reference
component indices strictly smaller than that component's own index, and
this invariant is preserved by every graph-building operation (components
are only appended, never removed or reordered). -/
theorem breadboard_acyclic_by_construction (ops : List TraceOp) (bb0 : Breadboard)
    (h0 : Acyclic bb0) (hwf : TraceWF bb0.components.length ops) :
    ∃ bb, run_trace bb0 ops = some bb ∧ Acyclic bb := by
  induction ops generalizing bb0 with
  | nil => exact ⟨bb0, rfl, h0⟩
  | cons op ops ih =>
    simp only [TraceWF] at hwf
    obtain ⟨hop, hwf2⟩ := hwf
    obtain ⟨c, hc, hcin⟩ := apply_op_spec bb0 op hop
    have h0' : Acyclic (⟨bb0.id, bb0.components ++ [c]⟩ : Breadboard) :=
      AcyclicComponents_append bb0.components c h0 hcin
    have hwf3 :
        TraceWF ((⟨bb0.id, bb0.components ++ [c]⟩ : Breadboard).components.length) ops := by
      simpa using hwf2
    obtain ⟨bb, hrun, hacy⟩ := ih _ h0' hwf3
    refine ⟨bb, ?_, hacy⟩
    rw [run_trace, hc]
    exact hrun

/-- Witness for C9: a two-call trace (a constant, then a negate expression
node over its wire) runs to completion and yields an acyclic breadboard. -/
theorem breadboard_acyclic_by_construction_witness :
    ∃ bb, run_trace ⟨0, []⟩ [.constantOp 5, .expr1Op ⟨0, 0⟩] = some bb ∧ Acyclic bb :=
  breadboard_acyclic_by_construction _ _
    (by intro i h w hw; simp at h)
    (by refine ⟨?_, ?_, trivial⟩ <;> simp [TraceOp.refs])

end Bakery
